import Mathlib

/-!
Verification of the restrained-ensemble plugin core
(`src/python_packaging/sample_restraint/src/cpp/ensemblepotential.cpp` and
`ensemblepotential.h`): a shallow embedding over real numbers of the
`BlurToGrid` functor, the `EnsemblePotential` constructor, the periodic
`callback` state update, and the per-step `calculate` force evaluation,
followed by theorems about them.

Machine `double` arithmetic is modelled by `ℝ`.  The external collaborators
that are not part of the inspected sources (`gmx::Vector`, the
`PotentialPointData` return record, and the ensemble reduction facility
reached through `Resources`) are modelled from the spec, as noted on each
definition.
-/

namespace Plugin

/-- Modelled from the spec: `gmx::Vector` (a 3-component position vector,
section 6: `v: Vec3`); the host engine supplies these. -/
structure Vec3 where
  x : ℝ
  y : ℝ
  z : ℝ

/-- Componentwise difference `v - v0`, as used for `rdiff` in the source. -/
def Vec3.sub (a b : Vec3) : Vec3 :=
  ⟨a.x - b.x, a.y - b.y, a.z - b.z⟩

/-- Modelled from the spec: the inner product `dot(rdiff, rdiff)` used to
obtain the squared pair distance. -/
def Vec3.dot (a b : Vec3) : ℝ :=
  a.x * b.x + a.y * b.y + a.z * b.z

/-- Modelled from the spec: `norm(rdiff)`, the Euclidean norm. -/
noncomputable def Vec3.norm (a : Vec3) : ℝ :=
  Real.sqrt (Vec3.dot a a)

/-- Scalar multiple of a vector: `rdiff * magnitude` in the source. -/
def Vec3.smul (c : ℝ) (a : Vec3) : Vec3 :=
  ⟨c * a.x, c * a.y, c * a.z⟩

/-- The zero vector. -/
def Vec3.zero : Vec3 :=
  ⟨0, 0, 0⟩

/-- Modelled from the spec: `gmx::PotentialPointData`, the output record of
`calculate` (section 6: `{force: Vec3, energy: optional<float>}`), with
zero-initialized force and energy; the source leaves `energy` at its default
(the `output.energy = 0` line is commented out as unneeded). -/
structure PotentialPointData where
  force : Vec3 := Vec3.zero
  energy : ℝ := 0

/-- The aggregate state record `ensemble_input_param_type` of
`ensemblepotential.h`: configuration inputs followed by the mutable state
data.  `Matrix<double>` windows of shape 1×nBins (from `sessionresources.h`,
modelled from the spec, section 6: `Matrix[1×nBins]`) are flattened to plain
lists of reals. -/
structure EnsembleState where
  nBins : ℕ
  binWidth : ℝ
  minDist : ℝ
  maxDist : ℝ
  experimental : List ℝ
  nSamples : ℕ
  samplePeriod : ℝ
  nWindows : ℕ
  k : ℝ
  sigma : ℝ
  histogram : List ℝ
  currentSample : ℕ
  nextSampleTime : ℝ
  distanceSamples : List ℝ
  currentWindow : ℕ
  windowStartTime : ℝ
  nextWindowUpdateTime : ℝ
  windows : List (List ℝ)

namespace EnsemblePotential

/-- The constructor `EnsemblePotential::EnsemblePotential(nbins, binWidth,
minDist, maxDist, experimental, nSamples, samplePeriod, nWindows, k, sigma)`.
Fields the constructor body does not assign keep the default member
initializers of `ensemble_input_param_type`: `currentSample = 0`,
`currentWindow = 0`, `windowStartTime = 0`, and the vectors
`distanceSamples` and `windows` default-construct empty.  The body assigns
`histogram` to `nbins` zeros, `nextSampleTime = samplePeriod` and
`nextWindowUpdateTime = nSamples * samplePeriod`. -/
def construct (nbins : ℕ) (binWidth minDist maxDist : ℝ) (experimental : List ℝ)
    (nSamples : ℕ) (samplePeriod : ℝ) (nWindows : ℕ) (k sigma : ℝ) :
    EnsembleState :=
  { nBins := nbins
    binWidth := binWidth
    minDist := minDist
    maxDist := maxDist
    experimental := experimental
    nSamples := nSamples
    samplePeriod := samplePeriod
    nWindows := nWindows
    k := k
    sigma := sigma
    histogram := List.replicate nbins 0
    currentSample := 0
    nextSampleTime := samplePeriod
    distanceSamples := []
    currentWindow := 0
    windowStartTime := 0
    nextWindowUpdateTime := (nSamples : ℝ) * samplePeriod
    windows := [] }

end EnsemblePotential

/-- The inner accumulation loop of `BlurToGrid::operator()` for one grid
point `i`: starting from `bin_value = 0`, for each sample add
`normalization * exp(numerator * denominator)` with
`normalization = 1/(num_samples * sqrt(2*pi*sigma*sigma))`,
`numerator = -(bin_x - distance)^2` and `denominator = 1/(2*sigma*sigma)`,
where `bin_x = low + i * dx`. -/
noncomputable def blurBinValue (low dx sigma : ℝ) (samples : List ℝ) (i : ℕ) : ℝ :=
  let denominator : ℝ := 1 / (2 * sigma * sigma)
  let normalization : ℝ :=
    1 / ((samples.length : ℝ) * Real.sqrt (2 * Real.pi * sigma * sigma))
  let bin_x : ℝ := low + (i : ℝ) * dx
  samples.foldl
    (fun bin_value distance =>
      bin_value +
        normalization *
          Real.exp (-((bin_x - distance) * (bin_x - distance)) * denominator))
    0

/-- `BlurToGrid::operator()(samples, grid)`: every entry of `grid` (indices
`0 ≤ i < grid.size()`) is overwritten with the accumulated `bin_value` for
that index.  Only the length of the incoming grid is read by the source; its
prior contents are discarded by the unconditional `grid->at(i) = bin_value`. -/
noncomputable def blurToGrid (low dx sigma : ℝ) (samples grid : List ℝ) : List ℝ :=
  (List.range grid.length).map (blurBinValue low dx sigma samples)

/-- The inner loop of the histogram recomputation in
`EnsemblePotential::callback`, walking `experimental`, `histogram` and one
`window` in step: `histogram.at(i) += (window[i] - experimental[i]) / W`
for `i < window.cols()`, with `W` the number of retained windows.  All lists
involved have `nBins` elements in every reachable use, where this recursion
agrees with the source loop pointwise. -/
noncomputable def histUpdate (W : ℕ) : List ℝ → List ℝ → List ℝ → List ℝ
  | ev :: es, hv :: hs, wv :: ws =>
      (hv + (wv - ev) / (W : ℝ)) :: histUpdate W es hs ws
  | _, h, _ => h

/-- The in-bounds condition for the sample store
`distanceSamples[currentSample] = R` performed by `callback` when
`t >= nextSampleTime`: `operator[]` on a `std::vector` is defined only for
indices below `size()`. -/
def sampleWriteInBounds (s : EnsembleState) : Prop :=
  s.currentSample < s.distanceSamples.length

namespace EnsemblePotential

/-- First block of `EnsemblePotential::callback`: when
`t >= nextSampleTime`, store `R` at index `currentSample` (the write is
modelled in-bounds by `List.set`, which leaves the list unchanged out of
bounds; `sampleWriteInBounds` tracks when the source write is defined),
post-increment `currentSample`, and set
`nextSampleTime = (currentSample + 1) * samplePeriod + windowStartTime`
using the incremented `currentSample`. -/
noncomputable def samplePhase (s : EnsembleState) (R t : ℝ) : EnsembleState :=
  if t ≥ s.nextSampleTime then
    { s with
      distanceSamples := s.distanceSamples.set s.currentSample R
      currentSample := s.currentSample + 1
      nextSampleTime :=
        ((s.currentSample + 1 + 1 : ℕ) : ℝ) * s.samplePeriod + s.windowStartTime }
  else s

/-- Second block of `EnsemblePotential::callback`: when
`t >= nextWindowUpdateTime`, evict the oldest window if the ring is at
capacity, blur `distanceSamples` onto a fresh 1×nBins grid
(`BlurToGrid(0.0, binWidth, sigma)`), call the ensemble reduction on the new
window (writing the ensemble sum into the local scratch `temp_window`, which
is then dropped), push the locally blurred `new_window` onto the ring, zero
and recompute `histogram`, and reset the window and sampling time markers. -/
noncomputable def rotatePhase (s1 : EnsembleState) (t : ℝ)
    (reduce : List ℝ → List ℝ) : EnsembleState :=
  if t ≥ s1.nextWindowUpdateTime then
    let windows1 :=
      if s1.windows.length = s1.nWindows then s1.windows.tail else s1.windows
    let new_window :=
      blurToGrid 0 s1.binWidth s1.sigma s1.distanceSamples
        (List.replicate s1.nBins 0)
    let _temp_window := reduce new_window
    let windows2 := windows1 ++ [new_window]
    let histogram1 :=
      windows2.foldl (fun h w => histUpdate windows2.length s1.experimental h w)
        (s1.histogram.map fun _ => 0)
    { s1 with
      windows := windows2
      histogram := histogram1
      windowStartTime := t
      nextWindowUpdateTime := (s1.nSamples : ℝ) * s1.samplePeriod + t
      currentWindow := s1.currentWindow + 1
      currentSample := 0
      nextSampleTime := t + s1.samplePeriod }
  else s1

/-- `EnsemblePotential::callback(v, v0, t, resources)`: compute
`R = sqrt(dot(v - v0, v - v0))`, run the sampling block, then the window
rotation block.  The ensemble reduction facility obtained from `resources`
(`getHandle` then `reduce`, external per the spec, section 6) is modelled by
the function `reduce` from the local matrix to the all-replica elementwise
sum. -/
noncomputable def callback (s : EnsembleState) (v v0 : Vec3) (t : ℝ)
    (reduce : List ℝ → List ℝ) : EnsembleState :=
  rotatePhase (samplePhase s (Real.sqrt (Vec3.dot (Vec3.sub v v0) (Vec3.sub v v0))) t)
    t reduce

/-- A run of the restraint: fold `callback` over a list of
`(v, v0, t)` call records, as the host engine drives it step by step. -/
noncomputable def callbackRun (s : EnsembleState)
    (calls : List (Vec3 × Vec3 × ℝ)) (reduce : List ℝ → List ℝ) :
    EnsembleState :=
  calls.foldl (fun acc c => callback acc c.1 c.2.1 c.2.2 reduce) s

/-- `EnsemblePotential::calculate(v, v0, t)`: the per-step force evaluation.
The method is embedded state-passing (it is a member function on the object
holding `state_`), returning the output record together with the state it
leaves behind; the body only ever reads `state_`. -/
noncomputable def calculate (s : EnsembleState) (v v0 : Vec3) (_t : ℝ) :
    PotentialPointData × EnsembleState :=
  let rdiff := Vec3.sub v v0
  let Rsquared := Vec3.dot rdiff rdiff
  let R := Real.sqrt Rsquared
  if R ≠ 0 then
    let f : ℝ :=
      if R > s.maxDist then
        s.k * (s.maxDist - R)
      else if R < s.minDist then
        s.k * (s.minDist - R)
      else
        let numBins := s.histogram.length
        let normConst := Real.sqrt (2 * Real.pi) * s.sigma * s.sigma * s.sigma
        let f_scal :=
          (List.range numBins).foldl
            (fun (acc : ℝ) (n : ℕ) =>
              let x := (n : ℝ) * s.binWidth - R
              let argExp := -0.5 * x * x / (s.sigma * s.sigma)
              acc + s.histogram.getD n 0 * Real.exp argExp * x / normConst)
            0;
        -s.k * f_scal
    let magnitude := f / Vec3.norm rdiff
    ({ force := Vec3.smul magnitude rdiff, energy := 0 }, s)
  else
    ({ force := Vec3.zero, energy := 0 }, s)

end EnsemblePotential

/-! ## General helper lemmas -/

theorem foldl_add_map {α : Type} (l : List α) (f : α → ℝ) (a : ℝ) :
    l.foldl (fun b x => b + f x) a = a + (l.map f).sum := by
  induction l generalizing a with
  | nil => simp
  | cons x xs ih => simp [ih, add_assoc]

theorem sum_map_div {α : Type} (l : List α) (f : α → ℝ) (c : ℝ) :
    (l.map fun x => f x / c).sum = (l.map f).sum / c := by
  induction l with
  | nil => simp
  | cons x xs ih => simp [ih, add_div]

theorem sum_map_mul_left_real {α : Type} (l : List α) (f : α → ℝ) (c : ℝ) :
    (l.map fun x => c * f x).sum = c * (l.map f).sum := by
  induction l with
  | nil => simp
  | cons x xs ih => simp [ih, mul_add]

theorem getD_map_range (g : ℕ → ℝ) (n i : ℕ) (hi : i < n) :
    ((List.range n).map g).getD i 0 = g i := by
  have h2 : i < ((List.range n).map g).length := by simpa using hi
  rw [List.getD_eq_getElem _ _ h2]
  simp

/-! ## Distinguished states and invariants used in the analysis -/

/-- The scheduling invariant that `callback` maintains along every run
started from the constructor: the two time markers always have the shape
the update rules give them relative to `windowStartTime`, and the sample
counter stays below `nSamples`. -/
def SchedInv (s : EnsembleState) : Prop :=
  0 ≤ s.samplePeriod ∧ 1 ≤ s.nSamples ∧ s.currentSample < s.nSamples ∧
    s.nextSampleTime =
      ((s.currentSample + 1 : ℕ) : ℝ) * s.samplePeriod + s.windowStartTime ∧
    s.nextWindowUpdateTime =
      (s.nSamples : ℝ) * s.samplePeriod + s.windowStartTime

/-- A concrete mid-window restraint state poised to rotate: one bin, one
collected sample, ring capacity two, not yet due for another sample at
`t = 1` but due for a window update. -/
def rotationStateOne : EnsembleState where
  nBins := 1
  binWidth := 1
  minDist := 0
  maxDist := 10
  experimental := [0]
  nSamples := 1
  samplePeriod := 1
  nWindows := 2
  k := 1
  sigma := 1
  histogram := [0]
  currentSample := 1
  nextSampleTime := 2
  distanceSamples := [1]
  currentWindow := 0
  windowStartTime := 0
  nextWindowUpdateTime := 1
  windows := []

/-- The starting state of the scheduling scenario of the spec:
`samplePeriod = 1.0`, `nSamples = 4` (so `nextSampleTime` starts at `1.0`
and `nextWindowUpdateTime` at `4.0`), with one bin and ring capacity one. -/
def scenarioStart : EnsembleState :=
  EnsemblePotential.construct 1 1 0 10 [0] 4 1 1 1 1

/-- The four `callback` invocations of the scenario, at simulation times
`t = 1, 2, 3, 4`, each with unit pair distance. -/
def scenarioCalls : List (Vec3 × Vec3 × ℝ) :=
  [(⟨1, 0, 0⟩, ⟨0, 0, 0⟩, 1), (⟨1, 0, 0⟩, ⟨0, 0, 0⟩, 2),
    (⟨1, 0, 0⟩, ⟨0, 0, 0⟩, 3), (⟨1, 0, 0⟩, ⟨0, 0, 0⟩, 4)]

/-! ## Spec-side formulas (written from the words of the spec, for
refinement comparison against the embedded source) -/

/-- The Gaussian kernel density estimate the spec prescribes for one grid
point: `grid[i] = (1 / (num_samples * sqrt(2*pi*sigma^2))) *
Σ_over_samples exp(-(bin_x_i - sample)^2 / (2*sigma^2))` with
`bin_x_i = low + i * binWidth`. -/
noncomputable def blurSpecValue (low dx sigma : ℝ) (samples : List ℝ) (i : ℕ) : ℝ :=
  1 / ((samples.length : ℝ) * Real.sqrt (2 * Real.pi * sigma ^ 2)) *
    (samples.map fun sv =>
      Real.exp (-(low + (i : ℝ) * dx - sv) ^ 2 / (2 * sigma ^ 2))).sum

/-- The force magnitude the spec prescribes for `calculate` at distance `R`:
flat-bottom `k * (maxDist - R)` above `maxDist`, `k * (minDist - R)` below
`minDist`, and otherwise
`-k * Σ_n histogram[n] * exp(-0.5 * x_n^2 / sigma^2) * x_n / (sqrt(2π) * sigma^3)`
with `x_n = n * binWidth - R`. -/
noncomputable def forceSpecScalar (s : EnsembleState) (R : ℝ) : ℝ :=
  if R > s.maxDist then s.k * (s.maxDist - R)
  else if R < s.minDist then s.k * (s.minDist - R)
  else
    -s.k *
      ((List.range s.histogram.length).map fun n =>
        s.histogram.getD n 0 *
            Real.exp (-0.5 * ((n : ℝ) * s.binWidth - R) ^ 2 / s.sigma ^ 2) *
            ((n : ℝ) * s.binWidth - R) /
          (Real.sqrt (2 * Real.pi) * s.sigma ^ 3)).sum

/-! ## Theorems about the embedded program -/

open EnsemblePotential

/-! ### Helper lemmas about the embedded operations -/

theorem getD_map_zero (l : List ℝ) (i : ℕ) :
    (l.map fun _ => (0 : ℝ)).getD i 0 = 0 := by
  induction l generalizing i with
  | nil => simp
  | cons a l ih => cases i <;> simp [ih]

theorem histUpdate_length (W : ℕ) (e h w : List ℝ) :
    (histUpdate W e h w).length = h.length := by
  induction e generalizing h w with
  | nil => simp [histUpdate]
  | cons ev es ih =>
    cases h with
    | nil => simp [histUpdate]
    | cons hv hs =>
      cases w with
      | nil => simp [histUpdate]
      | cons wv ws => simp [histUpdate, ih]

theorem histUpdate_getD (W : ℕ) (e h w : List ℝ) (i : ℕ) (hih : i < h.length)
    (hiw : i < w.length) (hie : i < e.length) :
    (histUpdate W e h w).getD i 0 =
      h.getD i 0 + (w.getD i 0 - e.getD i 0) / (W : ℝ) := by
  induction e generalizing h w i with
  | nil => simp at hie
  | cons ev es ih =>
    cases h with
    | nil => simp at hih
    | cons hv hs =>
      cases w with
      | nil => simp at hiw
      | cons wv ws =>
        cases i with
        | zero => simp [histUpdate]
        | succ j =>
          simp only [histUpdate, List.getD_cons_succ]
          exact ih hs ws j (by simpa using hih) (by simpa using hiw)
            (by simpa using hie)

theorem foldl_histUpdate_getD (W n : ℕ) (e : List ℝ) (he : e.length = n)
    (ws : List (List ℝ)) (hws : ∀ w ∈ ws, w.length = n) (h : List ℝ)
    (hh : h.length = n) (i : ℕ) (hi : i < n) :
    (ws.foldl (fun acc w => histUpdate W e acc w) h).getD i 0 =
      h.getD i 0 + ((ws.map fun w => (w.getD i 0 - e.getD i 0) / (W : ℝ)).sum) := by
  induction ws generalizing h with
  | nil => simp
  | cons w ws ih =>
    simp only [List.foldl_cons, List.map_cons, List.sum_cons]
    rw [ih (fun w2 hw2 => hws w2 (List.mem_cons_of_mem _ hw2)) _
      ((histUpdate_length W e h w).trans hh)]
    rw [histUpdate_getD W e h w i (hh ▸ hi)
      ((hws w (List.mem_cons_self _ _)) ▸ hi) (he ▸ hi)]
    ring

theorem blurToGrid_length (low dx sigma : ℝ) (samples grid : List ℝ) :
    (blurToGrid low dx sigma samples grid).length = grid.length := by
  simp [blurToGrid]

theorem samplePhase_experimental (s : EnsembleState) (R t : ℝ) :
    (samplePhase s R t).experimental = s.experimental := by
  unfold samplePhase; split <;> rfl

theorem samplePhase_histogram (s : EnsembleState) (R t : ℝ) :
    (samplePhase s R t).histogram = s.histogram := by
  unfold samplePhase; split <;> rfl

theorem samplePhase_windows (s : EnsembleState) (R t : ℝ) :
    (samplePhase s R t).windows = s.windows := by
  unfold samplePhase; split <;> rfl

theorem samplePhase_nBins (s : EnsembleState) (R t : ℝ) :
    (samplePhase s R t).nBins = s.nBins := by
  unfold samplePhase; split <;> rfl

theorem samplePhase_binWidth (s : EnsembleState) (R t : ℝ) :
    (samplePhase s R t).binWidth = s.binWidth := by
  unfold samplePhase; split <;> rfl

theorem samplePhase_sigma (s : EnsembleState) (R t : ℝ) :
    (samplePhase s R t).sigma = s.sigma := by
  unfold samplePhase; split <;> rfl

theorem samplePhase_nextWindowUpdateTime (s : EnsembleState) (R t : ℝ) :
    (samplePhase s R t).nextWindowUpdateTime = s.nextWindowUpdateTime := by
  unfold samplePhase; split <;> rfl

/-- The histogram recomputed at a rotation, in closed form: starting from a
zeroed histogram and folding the accumulation loop over the retained
windows gives, at each bin, the sum of deviations divided by the window
count. -/
theorem rotationHistogram_eq (nBins : ℕ) (e h0 : List ℝ) (he : e.length = nBins)
    (hh : h0.length = nBins) (ws2 : List (List ℝ))
    (hws : ∀ w ∈ ws2, w.length = nBins) (i : ℕ) (hi : i < nBins) :
    (ws2.foldl (fun acc w => histUpdate ws2.length e acc w)
        (h0.map fun _ => 0)).getD i 0 =
      ((ws2.map fun w => w.getD i 0 - e.getD i 0).sum) / (ws2.length : ℝ) := by
  rw [foldl_histUpdate_getD ws2.length nBins e he ws2 hws _ (by simp [hh]) i hi]
  rw [getD_map_zero, zero_add, sum_map_div]

/-- C9: `calculate` is side-effect-free on the restraint state: for every
input and every state, the state it returns is the state it was given, every
field unchanged. -/
theorem calculate_state_unchanged (s : EnsembleState) (v v0 : Vec3) (t : ℝ) :
    (calculate s v v0 t).2 = s := by
  unfold calculate
  dsimp only
  split <;> rfl

/-- C7: when `v = v0` the pair distance `R` is zero, the force direction is
ill-defined, and `calculate` returns the zero force vector and zero energy
(the guarded branch is skipped; no division is evaluated and no error is
raised). -/
theorem calculate_zero_distance (s : EnsembleState) (v : Vec3) (t : ℝ) :
    (calculate s v v t).1.force = Vec3.zero ∧
      (calculate s v v t).1.energy = 0 := by
  unfold calculate
  simp [Vec3.sub, Vec3.dot]

/-- C10: a `callback` call at a time `t` that reaches neither the sampling
threshold nor the window-update threshold leaves the whole restraint state
unchanged. -/
theorem callback_below_thresholds_state_unchanged (s : EnsembleState)
    (v v0 : Vec3) (t : ℝ) (reduce : List ℝ → List ℝ)
    (h1 : t < s.nextSampleTime) (h2 : t < s.nextWindowUpdateTime) :
    callback s v v0 t reduce = s := by
  have g1 : ¬t ≥ s.nextSampleTime := not_le.mpr h1
  have g2 : ¬t ≥ s.nextWindowUpdateTime := not_le.mpr h2
  unfold callback samplePhase rotatePhase
  rw [if_neg g1, if_neg g2]

/-- Witness for `callback_below_thresholds_state_unchanged` at a concrete
constructed state and `t = 0`. -/
theorem callback_below_thresholds_state_unchanged_witness :
    (0 : ℝ) < (construct 1 1 0 10 [0] 1 1 1 1 1).nextSampleTime ∧
      (0 : ℝ) < (construct 1 1 0 10 [0] 1 1 1 1 1).nextWindowUpdateTime ∧
      callback (construct 1 1 0 10 [0] 1 1 1 1 1) Vec3.zero Vec3.zero 0
          (fun l => l) =
        construct 1 1 0 10 [0] 1 1 1 1 1 :=
  ⟨by norm_num [construct], by norm_num [construct],
    callback_below_thresholds_state_unchanged _ _ _ _ _
      (by norm_num [construct]) (by norm_num [construct])⟩

/-- C2 (the code contradicts it): the constructor never allocates the
`distanceSamples` buffer, so for every configuration it holds `0` elements
rather than `nSamples`, the very first sample store
`distanceSamples[currentSample] = R` in `callback` is out of bounds, and the
rotation-time consistency condition `distanceSamples.size() == nSamples`
(asserted by the source) is already false at construction. -/
theorem construct_distanceSamples_unallocated (nbins : ℕ)
    (binWidth minDist maxDist : ℝ) (experimental : List ℝ) (nSamples : ℕ)
    (samplePeriod : ℝ) (nWindows : ℕ) (k sigma : ℝ) (hns : 1 ≤ nSamples) :
    (construct nbins binWidth minDist maxDist experimental nSamples
        samplePeriod nWindows k sigma).distanceSamples.length = 0 ∧
      ¬sampleWriteInBounds (construct nbins binWidth minDist maxDist
        experimental nSamples samplePeriod nWindows k sigma) ∧
      (construct nbins binWidth minDist maxDist experimental nSamples
        samplePeriod nWindows k sigma).distanceSamples.length ≠ nSamples := by
  refine ⟨rfl, ?_, ?_⟩
  · simp [sampleWriteInBounds, construct]
  · simp [construct]
    omega

/-- Witness for `construct_distanceSamples_unallocated` at a concrete
configuration. -/
theorem construct_distanceSamples_unallocated_witness :
    1 ≤ 1 ∧
      ((construct 1 1 0 10 [0] 1 1 1 1 1).distanceSamples.length = 0 ∧
        ¬sampleWriteInBounds (construct 1 1 0 10 [0] 1 1 1 1 1) ∧
        (construct 1 1 0 10 [0] 1 1 1 1 1).distanceSamples.length ≠ 1) :=
  ⟨le_refl 1,
    construct_distanceSamples_unallocated 1 1 0 10 [0] 1 1 1 1 1 (le_refl 1)⟩

/-- The accumulated bin value of the source equals the closed-form KDE value
of the spec. -/
theorem blurBinValue_eq_spec (low dx sigma : ℝ) (samples : List ℝ) (i : ℕ) :
    blurBinValue low dx sigma samples i = blurSpecValue low dx sigma samples i := by
  unfold blurBinValue blurSpecValue
  dsimp only
  rw [foldl_add_map, zero_add, sum_map_mul_left_real]
  rw [show 2 * Real.pi * sigma * sigma = 2 * Real.pi * sigma ^ 2 by ring]
  congr 1
  refine congrArg _ (List.map_congr_left ?_)
  intro d _
  congr 1
  ring

/-- C5: `BlurToGrid` overwrites every grid entry `i` with the normalized
Gaussian kernel density estimate of the spec (the result is independent of
the prior grid contents except for its length, every sample contributes to
every bin, and the length of the grid is preserved). -/
theorem blurToGrid_writes_kde (low dx sigma : ℝ) (samples grid : List ℝ)
    (_hs : samples ≠ []) (i : ℕ) (hi : i < grid.length) :
    (blurToGrid low dx sigma samples grid).length = grid.length ∧
      (blurToGrid low dx sigma samples grid).getD i 0 =
        blurSpecValue low dx sigma samples i := by
  constructor
  · simp [blurToGrid]
  · rw [blurToGrid, getD_map_range _ _ _ hi]
    exact blurBinValue_eq_spec low dx sigma samples i

/-- Witness for `blurToGrid_writes_kde` on a one-sample list and a
one-bin grid with stale prior contents. -/
theorem blurToGrid_writes_kde_witness :
    ([ (1 : ℝ) ] ≠ []) ∧ 0 < [ (5 : ℝ) ].length ∧
      ((blurToGrid 0 1 1 [1] [5]).length = [ (5 : ℝ) ].length ∧
        (blurToGrid 0 1 1 [1] [5]).getD 0 0 = blurSpecValue 0 1 1 [1] 0) :=
  ⟨by simp, by simp, blurToGrid_writes_kde 0 1 1 [1] [5] (by simp) 0 (by simp)⟩

/-- C6: for nonzero pair distance `R`, the force `calculate` returns is the
spec force magnitude divided by `R` times the relative position vector
`rdiff = v - v0`, and the energy output is left at zero. -/
theorem calculate_force_formula (s : EnsembleState) (v v0 : Vec3) (t : ℝ)
    (hR : Real.sqrt (Vec3.dot (Vec3.sub v v0) (Vec3.sub v v0)) ≠ 0) :
    (calculate s v v0 t).1.force =
      Vec3.smul
        (forceSpecScalar s (Real.sqrt (Vec3.dot (Vec3.sub v v0) (Vec3.sub v v0))) /
          Real.sqrt (Vec3.dot (Vec3.sub v v0) (Vec3.sub v v0)))
        (Vec3.sub v v0) ∧
      (calculate s v v0 t).1.energy = 0 := by
  unfold calculate
  dsimp only
  rw [if_pos hR]
  dsimp only
  refine ⟨?_, rfl⟩
  refine congrArg (fun c => Vec3.smul c (Vec3.sub v v0)) ?_
  show _ / Vec3.norm (Vec3.sub v v0) = _
  unfold Vec3.norm
  refine congrArg (· / Real.sqrt (Vec3.dot (Vec3.sub v v0) (Vec3.sub v v0))) ?_
  unfold forceSpecScalar
  split_ifs with h1 h2
  · rfl
  · rfl
  · rw [foldl_add_map, zero_add]
    refine congrArg (-s.k * ·) ?_
    refine congrArg _ (List.map_congr_left ?_)
    intro n _
    rw [show -0.5 * ((n : ℝ) * s.binWidth -
          Real.sqrt (Vec3.dot (Vec3.sub v v0) (Vec3.sub v v0))) *
            ((n : ℝ) * s.binWidth -
          Real.sqrt (Vec3.dot (Vec3.sub v v0) (Vec3.sub v v0))) /
            (s.sigma * s.sigma) =
        -0.5 * ((n : ℝ) * s.binWidth -
          Real.sqrt (Vec3.dot (Vec3.sub v v0) (Vec3.sub v v0))) ^ 2 /
            s.sigma ^ 2 by ring]
    ring

/-- At a rotation, `rotatePhase` recomputes the histogram as the mean
deviation from the experimental reference over the windows it retains. -/
theorem rotatePhase_histogram_mean (s1 : EnsembleState) (t : ℝ)
    (reduce : List ℝ → List ℝ) (h : t ≥ s1.nextWindowUpdateTime)
    (hexp : s1.experimental.length = s1.nBins)
    (hhist : s1.histogram.length = s1.nBins)
    (hwin : ∀ w ∈ s1.windows, w.length = s1.nBins) (i : ℕ) (hi : i < s1.nBins) :
    (rotatePhase s1 t reduce).histogram.getD i 0 =
      (((rotatePhase s1 t reduce).windows.map fun w =>
          w.getD i 0 - s1.experimental.getD i 0).sum) /
        ((rotatePhase s1 t reduce).windows.length : ℝ) := by
  have hblur : (blurToGrid 0 s1.binWidth s1.sigma s1.distanceSamples
      (List.replicate s1.nBins 0)).length = s1.nBins := by
    rw [blurToGrid_length]; simp
  unfold rotatePhase
  rw [if_pos h]
  by_cases hcap : s1.windows.length = s1.nWindows
  · rw [if_pos hcap]
    dsimp only
    apply rotationHistogram_eq s1.nBins s1.experimental s1.histogram hexp hhist _ ?_ i hi
    intro w hw
    rcases List.mem_append.mp hw with hw1 | hw1
    · exact hwin w (List.mem_of_mem_tail hw1)
    · rw [List.mem_singleton.mp hw1]; exact hblur
  · rw [if_neg hcap]
    dsimp only
    apply rotationHistogram_eq s1.nBins s1.experimental s1.histogram hexp hhist _ ?_ i hi
    intro w hw
    rcases List.mem_append.mp hw with hw1 | hw1
    · exact hwin w hw1
    · rw [List.mem_singleton.mp hw1]; exact hblur

/-- C4: after every window rotation performed by `callback`, each histogram
bin `i` holds the arithmetic mean over the retained windows of
`window[i] - experimental[i]`, the divisor being the number of windows the
ring currently retains. -/
theorem callback_histogram_mean_deviation (s : EnsembleState) (v v0 : Vec3)
    (t : ℝ) (reduce : List ℝ → List ℝ) (h : t ≥ s.nextWindowUpdateTime)
    (hexp : s.experimental.length = s.nBins)
    (hhist : s.histogram.length = s.nBins)
    (hwin : ∀ w ∈ s.windows, w.length = s.nBins) (i : ℕ) (hi : i < s.nBins) :
    (callback s v v0 t reduce).histogram.getD i 0 =
      (((callback s v v0 t reduce).windows.map fun w =>
          w.getD i 0 - s.experimental.getD i 0).sum) /
        ((callback s v v0 t reduce).windows.length : ℝ) := by
  unfold callback
  have h1 : t ≥ (samplePhase s
      (Real.sqrt (Vec3.dot (Vec3.sub v v0) (Vec3.sub v v0))) t).nextWindowUpdateTime := by
    rw [samplePhase_nextWindowUpdateTime]; exact h
  have hmain := rotatePhase_histogram_mean _ t reduce h1
    (by simp only [samplePhase_experimental, samplePhase_nBins]; exact hexp)
    (by simp only [samplePhase_histogram, samplePhase_nBins]; exact hhist)
    (by simp only [samplePhase_windows, samplePhase_nBins]; exact hwin)
    i (by simp only [samplePhase_nBins]; exact hi)
  rw [samplePhase_experimental] at hmain
  exact hmain

/-- Witness for `callback_histogram_mean_deviation` on a concrete
constructed state rotated at `t = 1`. -/
theorem callback_histogram_mean_deviation_witness :
    (1 : ℝ) ≥ (construct 1 1 0 10 [0] 1 1 1 1 1).nextWindowUpdateTime ∧
      (callback (construct 1 1 0 10 [0] 1 1 1 1 1) Vec3.zero Vec3.zero 1
          (fun l => l)).histogram.getD 0 0 =
        (((callback (construct 1 1 0 10 [0] 1 1 1 1 1) Vec3.zero Vec3.zero 1
            (fun l => l)).windows.map fun w =>
            w.getD 0 0 - (construct 1 1 0 10 [0] 1 1 1 1 1).experimental.getD 0 0).sum) /
          ((callback (construct 1 1 0 10 [0] 1 1 1 1 1) Vec3.zero Vec3.zero 1
            (fun l => l)).windows.length : ℝ) :=
  ⟨by norm_num [construct],
    callback_histogram_mean_deviation (construct 1 1 0 10 [0] 1 1 1 1 1)
      Vec3.zero Vec3.zero 1 (fun l => l) (by norm_num [construct])
      (by simp [construct]) (by simp [construct]) (by simp [construct]) 0
      (by simp [construct])⟩

/-- Witness for `calculate_force_formula` at `R = 6` with flat-bottom bounds
`minDist = 1`, `maxDist = 5`. -/
theorem calculate_force_formula_witness :
    Real.sqrt (Vec3.dot (Vec3.sub ⟨6, 0, 0⟩ ⟨0, 0, 0⟩)
        (Vec3.sub ⟨6, 0, 0⟩ ⟨0, 0, 0⟩)) ≠ 0 ∧
      ((calculate (construct 1 1 1 5 [0] 1 1 1 10 1) ⟨6, 0, 0⟩ ⟨0, 0, 0⟩ 0).1.force =
        Vec3.smul
          (forceSpecScalar (construct 1 1 1 5 [0] 1 1 1 10 1)
              (Real.sqrt (Vec3.dot (Vec3.sub ⟨6, 0, 0⟩ ⟨0, 0, 0⟩)
                (Vec3.sub ⟨6, 0, 0⟩ ⟨0, 0, 0⟩))) /
            Real.sqrt (Vec3.dot (Vec3.sub ⟨6, 0, 0⟩ ⟨0, 0, 0⟩)
              (Vec3.sub ⟨6, 0, 0⟩ ⟨0, 0, 0⟩)))
          (Vec3.sub ⟨6, 0, 0⟩ ⟨0, 0, 0⟩) ∧
        (calculate (construct 1 1 1 5 [0] 1 1 1 10 1) ⟨6, 0, 0⟩ ⟨0, 0, 0⟩ 0).1.energy = 0) :=
  ⟨by
    rw [show Vec3.dot (Vec3.sub ⟨6, 0, 0⟩ ⟨0, 0, 0⟩) (Vec3.sub ⟨6, 0, 0⟩ ⟨0, 0, 0⟩) =
        (36 : ℝ) by norm_num [Vec3.sub, Vec3.dot]]
    exact Real.sqrt_ne_zero'.mpr (by norm_num),
    calculate_force_formula (construct 1 1 1 5 [0] 1 1 1 10 1) ⟨6, 0, 0⟩ ⟨0, 0, 0⟩ 0
      (by
        rw [show Vec3.dot (Vec3.sub ⟨6, 0, 0⟩ ⟨0, 0, 0⟩) (Vec3.sub ⟨6, 0, 0⟩ ⟨0, 0, 0⟩) =
            (36 : ℝ) by norm_num [Vec3.sub, Vec3.dot]]
        exact Real.sqrt_ne_zero'.mpr (by norm_num))⟩

/-- Counterexample to C1 as stated: with an ensemble of two replicas holding
identical local data (so that the all-replica elementwise sum returned by
the reduction facility is the doubled local window), the window the
rotation appends to the ring differs from the ensemble-reduced value: the
source pushes `new_window` (the local blurred data), while the reduction
result lands in the discarded `temp_window`. -/
theorem callback_rotation_push_counterexample :
    (callback rotationStateOne Vec3.zero Vec3.zero 1
        (fun w => w.map fun x => x + x)).windows.getLast? ≠
      some ((fun w => w.map fun x => x + x)
        (blurToGrid 0 rotationStateOne.binWidth rotationStateOne.sigma
          rotationStateOne.distanceSamples
          (List.replicate rotationStateOne.nBins 0))) := by
  have hval : 0 < blurBinValue 0 1 1 [1] 0 := by
    unfold blurBinValue
    simp only [List.foldl_cons, List.foldl_nil, zero_add, List.length_cons,
      List.length_nil, Nat.cast_one]
    positivity
  unfold callback samplePhase rotatePhase rotationStateOne
  norm_num [blurToGrid]
  intro hcontra
  have : blurBinValue 0 1 1 [1] 0 = 0 := by linarith
  exact absurd this (ne_of_gt hval)

/-- C1 as amended: the window appended to the ring at a rotation is the
locally blurred sample buffer (the post-sampling `distanceSamples` rendered
by `BlurToGrid(0, binWidth, sigma)` onto a fresh 1×nBins grid), and the
ensemble-reduced value has no effect on the resulting state at all (the
state is the same whatever the reduction returns). -/
theorem callback_rotation_appends_local_window (s : EnsembleState)
    (v v0 : Vec3) (t : ℝ) (reduce : List ℝ → List ℝ)
    (h : t ≥ s.nextWindowUpdateTime) :
    (callback s v v0 t reduce).windows.getLast? =
      some (blurToGrid 0 s.binWidth s.sigma
        (samplePhase s (Real.sqrt (Vec3.dot (Vec3.sub v v0) (Vec3.sub v v0)))
          t).distanceSamples
        (List.replicate s.nBins 0)) ∧
      callback s v v0 t reduce = callback s v v0 t (fun w => w) := by
  constructor
  · unfold callback rotatePhase
    rw [samplePhase_nextWindowUpdateTime, if_pos h]
    dsimp only
    simp only [samplePhase_binWidth, samplePhase_sigma, samplePhase_nBins]
    rw [List.getLast?_concat]
  · rfl

/-- Witness for `callback_rotation_appends_local_window` at a concrete
constructed state, `t = 1`, and the two-replica reduction. -/
theorem callback_rotation_appends_local_window_witness :
    (1 : ℝ) ≥ (construct 1 1 0 10 [0] 1 1 1 1 1).nextWindowUpdateTime ∧
      ((callback (construct 1 1 0 10 [0] 1 1 1 1 1) Vec3.zero Vec3.zero 1
          (fun w => w.map fun x => x + x)).windows.getLast? =
        some (blurToGrid 0 (construct 1 1 0 10 [0] 1 1 1 1 1).binWidth
          (construct 1 1 0 10 [0] 1 1 1 1 1).sigma
          (samplePhase (construct 1 1 0 10 [0] 1 1 1 1 1)
            (Real.sqrt (Vec3.dot (Vec3.sub Vec3.zero Vec3.zero)
              (Vec3.sub Vec3.zero Vec3.zero))) 1).distanceSamples
          (List.replicate (construct 1 1 0 10 [0] 1 1 1 1 1).nBins 0)) ∧
        callback (construct 1 1 0 10 [0] 1 1 1 1 1) Vec3.zero Vec3.zero 1
            (fun w => w.map fun x => x + x) =
          callback (construct 1 1 0 10 [0] 1 1 1 1 1) Vec3.zero Vec3.zero 1
            (fun w => w)) :=
  ⟨by norm_num [construct],
    callback_rotation_appends_local_window (construct 1 1 0 10 [0] 1 1 1 1 1)
      Vec3.zero Vec3.zero 1 (fun w => w.map fun x => x + x)
      (by norm_num [construct])⟩

/-- The constructor establishes the scheduling invariant. -/
theorem schedInv_construct (nbins : ℕ) (binWidth minDist maxDist : ℝ)
    (experimental : List ℝ) (nSamples : ℕ) (samplePeriod : ℝ) (nWindows : ℕ)
    (k sigma : ℝ) (hsp : 0 ≤ samplePeriod) (hns : 1 ≤ nSamples) :
    SchedInv (construct nbins binWidth minDist maxDist experimental nSamples
      samplePeriod nWindows k sigma) := by
  refine ⟨hsp, hns, Nat.lt_of_lt_of_le Nat.one_pos hns, ?_, ?_⟩
  · show samplePeriod = ((0 + 1 : ℕ) : ℝ) * samplePeriod + 0
    push_cast
    ring
  · show (nSamples : ℝ) * samplePeriod = (nSamples : ℝ) * samplePeriod + 0
    ring

/-- One `callback` step preserves the scheduling invariant and never
decreases either time marker. -/
theorem schedInv_callback_step (s : EnsembleState) (hInv : SchedInv s)
    (v v0 : Vec3) (t : ℝ) (reduce : List ℝ → List ℝ) :
    SchedInv (callback s v v0 t reduce) ∧
      s.nextSampleTime ≤ (callback s v v0 t reduce).nextSampleTime ∧
      s.nextWindowUpdateTime ≤ (callback s v v0 t reduce).nextWindowUpdateTime := by
  obtain ⟨hsp, hns, hcs, hnst, hnwut⟩ := hInv
  have hcast : ((s.currentSample + 1 : ℕ) : ℝ) ≤ (s.nSamples : ℝ) := by
    exact_mod_cast hcs
  have hnn : 0 ≤ (s.nSamples : ℝ) * s.samplePeriod :=
    mul_nonneg (Nat.cast_nonneg _) hsp
  unfold callback samplePhase rotatePhase
  by_cases h1 : t ≥ s.nextSampleTime
  · rw [if_pos h1]
    dsimp only
    by_cases h2 : t ≥ s.nextWindowUpdateTime
    · rw [if_pos h2]
      dsimp only
      have hw : s.windowStartTime ≤ t := by
        rw [hnwut] at h2
        linarith
      refine ⟨⟨hsp, hns, Nat.lt_of_lt_of_le Nat.one_pos hns, ?_, ?_⟩, ?_, ?_⟩
      · push_cast
        ring
      · rfl
      · linarith
      · rw [hnwut]
        linarith
    · rw [if_neg h2]
      dsimp only
      have hlt : s.currentSample + 1 < s.nSamples := by
        by_contra hh
        push_neg at hh
        have heq : s.nSamples = s.currentSample + 1 := le_antisymm hh hcs
        apply h2
        rw [hnwut, heq, ← hnst]
        exact h1
      have hstep := mul_le_mul_of_nonneg_right
        (show ((s.currentSample + 1 : ℕ) : ℝ) ≤ ((s.currentSample + 1 + 1 : ℕ) : ℝ) by
          push_cast; linarith) hsp
      refine ⟨⟨hsp, hns, hlt, rfl, hnwut⟩, ?_, le_refl _⟩
      rw [hnst]
      linarith
  · rw [if_neg h1]
    by_cases h2 : t ≥ s.nextWindowUpdateTime
    · rw [if_pos h2]
      dsimp only
      have hw : s.windowStartTime ≤ t := by
        rw [hnwut] at h2
        linarith
      have hmul := mul_le_mul_of_nonneg_right hcast hsp
      refine ⟨⟨hsp, hns, Nat.lt_of_lt_of_le Nat.one_pos hns, ?_, ?_⟩, ?_, ?_⟩
      · push_cast
        ring
      · rfl
      · rw [hnst]
        rw [hnwut] at h2
        linarith
      · rw [hnwut]
        linarith
    · rw [if_neg h2]
      exact ⟨⟨hsp, hns, hcs, hnst, hnwut⟩, le_refl _, le_refl _⟩

/-- Every run of `callback` steps preserves the scheduling invariant. -/
theorem schedInv_callbackRun (calls : List (Vec3 × Vec3 × ℝ))
    (reduce : List ℝ → List ℝ) (s : EnsembleState) (hInv : SchedInv s) :
    SchedInv (callbackRun s calls reduce) := by
  induction calls generalizing s with
  | nil => exact hInv
  | cons c cs ih =>
    simp only [callbackRun, List.foldl_cons]
    exact ih _ ((schedInv_callback_step s hInv c.1 c.2.1 c.2.2 reduce).1)

/-- C8: along every run started from a constructed restraint with positive
`samplePeriod` and `nSamples ≥ 1`, each further `callback` call leaves
`nextSampleTime` and `nextWindowUpdateTime` no smaller than they were
before the call (the run prefix `calls` is arbitrary, so this covers every
call of every run). -/
theorem run_time_markers_monotone (nbins : ℕ) (binWidth minDist maxDist : ℝ)
    (experimental : List ℝ) (nSamples : ℕ) (samplePeriod : ℝ) (nWindows : ℕ)
    (k sigma : ℝ) (hsp : 0 < samplePeriod) (hns : 1 ≤ nSamples)
    (calls : List (Vec3 × Vec3 × ℝ)) (reduce : List ℝ → List ℝ)
    (s : EnsembleState)
    (hs : s = callbackRun (construct nbins binWidth minDist maxDist
      experimental nSamples samplePeriod nWindows k sigma) calls reduce)
    (v v0 : Vec3) (t : ℝ) :
    s.nextSampleTime ≤ (callback s v v0 t reduce).nextSampleTime ∧
      s.nextWindowUpdateTime ≤ (callback s v v0 t reduce).nextWindowUpdateTime := by
  have hInv : SchedInv s := by
    rw [hs]
    exact schedInv_callbackRun calls reduce _
      (schedInv_construct nbins binWidth minDist maxDist experimental nSamples
        samplePeriod nWindows k sigma hsp.le hns)
  exact (schedInv_callback_step s hInv v v0 t reduce).2

/-- Witness for `run_time_markers_monotone` at a concrete configuration,
the empty run prefix, and one further call at `t = 0`. -/
theorem run_time_markers_monotone_witness :
    (0 : ℝ) < 1 ∧ 1 ≤ 1 ∧
      ((callbackRun (construct 1 1 0 10 [0] 1 1 1 1 1) [] (fun l => l)).nextSampleTime ≤
        (callback (callbackRun (construct 1 1 0 10 [0] 1 1 1 1 1) [] (fun l => l))
          Vec3.zero Vec3.zero 0 (fun l => l)).nextSampleTime ∧
      (callbackRun (construct 1 1 0 10 [0] 1 1 1 1 1) [] (fun l => l)).nextWindowUpdateTime ≤
        (callback (callbackRun (construct 1 1 0 10 [0] 1 1 1 1 1) [] (fun l => l))
          Vec3.zero Vec3.zero 0 (fun l => l)).nextWindowUpdateTime) :=
  ⟨by norm_num, le_refl 1,
    run_time_markers_monotone 1 1 0 10 [0] 1 1 1 1 1 (by norm_num) (le_refl 1)
      [] (fun l => l) _ rfl Vec3.zero Vec3.zero 0⟩

/-- C3: evaluation of the scheduling scenario (`samplePeriod = 1.0`,
`nSamples = 4`, calls at `t = 1, 2, 3, 4`).  The time bookkeeping behaves
as claimed: exactly one rotation occurs, on the call at `t = 4` and on no
earlier call, and immediately after it `currentSample = 0` and
`windowStartTime = 4.0`.  The sample-buffer part of the claim, however, is
contradicted by the code: already at the first call (`t = 1 ≥
nextSampleTime`) the store `distanceSamples[currentSample] = R` is out of
bounds, because the constructor never allocates `distanceSamples`, and the
buffer therefore never reaches length 4 (it stays empty, falsifying the
rotation-time assertion `distanceSamples.size() == nSamples`). -/
theorem scheduling_scenario_eval :
    ((1 : ℝ) ≥ scenarioStart.nextSampleTime ∧ ¬sampleWriteInBounds scenarioStart) ∧
      (callbackRun scenarioStart scenarioCalls (fun l => l)).currentSample = 0 ∧
      (callbackRun scenarioStart scenarioCalls (fun l => l)).windowStartTime = 4 ∧
      (callbackRun scenarioStart scenarioCalls (fun l => l)).windows.length = 1 ∧
      (callbackRun scenarioStart (scenarioCalls.take 3) (fun l => l)).windows.length = 0 ∧
      (callbackRun scenarioStart scenarioCalls (fun l => l)).distanceSamples.length = 0 := by
  refine ⟨⟨?_, ?_⟩, ?_⟩
  · norm_num [scenarioStart, construct]
  · simp [sampleWriteInBounds, scenarioStart, construct]
  · norm_num [callbackRun, scenarioCalls, scenarioStart, construct, callback,
      samplePhase, rotatePhase, blurToGrid, sampleWriteInBounds]

end Plugin
